import Mathlib

/-!
Verification of the pantry-app inventory reconciliation engine.

The definitions below are a shallow embedding of the store hook in
src/unnamed/part_000 (the usePantryStore hook): the Storage Area Registry
operations (addStorageArea, updateStorageArea, deleteStorageArea,
reorderStorageAreas) and the Item Ledger operations (addItem,
updateItemQuantity, removeItem, openItem), plus the store facade that
combines the two collections.

Modelling conventions:
- TS numbers used as integers (quantities, order values, timestamps) are Int.
- Calendar dates (ISO YYYY-MM-DD strings in the code) are modelled as whole
  day indices (Int): both the expiry date and today are midnights, so the
  millisecond arithmetic of the code divides out into exact whole days and
  Math.ceil of an exact whole-day difference is that difference.
- The impure generateId() and Date.now() calls are passed in explicitly as
  the freshId / now / today arguments.
- JS String.prototype.trim and toLowerCase are modelled on the character
  list of the string (String.trim of core Lean does not reduce in the
  kernel, so we spell out the same computation on List Char).
- Effects (setState, IndexedDB persistence) are dropped: each operation is
  the pure state transformer that the corresponding setState updater applies.
-/

namespace Pantry

/-- Model of JS String.prototype.trim: drop whitespace from both ends. -/
def jsTrim (s : String) : String :=
  String.mk (((s.data.dropWhile Char.isWhitespace).reverse.dropWhile Char.isWhitespace).reverse)

/-- Model of JS String.prototype.toLowerCase (ASCII case folding). -/
def lowerStr (s : String) : String :=
  String.mk (s.data.map Char.toLower)

/-- StorageArea record, from src/frontend/src/domain/types.ts. Icons and
colors are enumerated display strings with no semantic role here. -/
structure StorageArea where
  id : String
  name : String
  icon : String
  color : String
  order : Int
  deriving DecidableEq

/-- PantryItem record, from src/frontend/src/domain/types.ts. The optional
openedAt timestamp and the optional expiry date are Option Int. -/
structure PantryItem where
  id : String
  name : String
  quantity : Int
  storageAreaId : String
  createdAt : Int
  isOpened : Bool
  openedAt : Option Int
  expiryDate : Option Int
  deriving DecidableEq

/-- The update object of updateStorageArea. Its TS type is
Partial (Omit StorageArea id), so it has optional name, icon, color AND
order fields; a present field overwrites via object spread. -/
structure AreaUpdates where
  name : Option String
  icon : Option String
  color : Option String
  order : Option Int
  deriving DecidableEq

/-- Object spread of an updates object over an area: present fields win. -/
def applyAreaUpdates (a : StorageArea) (u : AreaUpdates) : StorageArea :=
  { a with
    name := u.name.getD a.name
    icon := u.icon.getD a.icon
    color := u.color.getD a.color
    order := u.order.getD a.order }

/-- addStorageArea from part_000: no-op when the trimmed name is empty,
else append a fresh area with order = previous count. -/
def addStorageArea (prev : List StorageArea) (freshId : String)
    (name : String) (icon : String) (color : String) : List StorageArea :=
  let trimmedName := jsTrim name
  if trimmedName = "" then prev
  else prev ++ [{ id := freshId, name := trimmedName, icon := icon,
                  color := color, order := (prev.length : Int) }]

/-- updateStorageArea from part_000: map over areas, spreading the updates
object onto the area whose id matches. -/
def updateStorageArea (prev : List StorageArea) (id : String)
    (u : AreaUpdates) : List StorageArea :=
  prev.map (fun area => if area.id = id then applyAreaUpdates area u else area)

/-- The renumbering map of part_000, map with index: order := position,
starting at k. The source always starts at 0; the offset form supports
induction. -/
def renumberFrom (k : Int) : List StorageArea → List StorageArea
  | [] => []
  | a :: rest => { a with order := k } :: renumberFrom (k + 1) rest

/-- The map((area, idx) to ({...area, order: idx})) renumbering of the
delete and reorder operations. -/
def renumberAreas (l : List StorageArea) : List StorageArea :=
  renumberFrom 0 l

/-- The registry half of deleteStorageArea: filter the area out, then
renumber the remaining orders to close gaps. -/
def deleteStorageAreaAreas (prev : List StorageArea) (id : String) : List StorageArea :=
  renumberAreas (prev.filter (fun area => decide (area.id ≠ id)))

/-- Lookup in the Map built by reorderStorageAreas from prev: a JS Map keeps
the last entry for a duplicated key, hence find? on the reversed list. -/
def areaLookup (prev : List StorageArea) (id : String) : Option StorageArea :=
  prev.reverse.find? (fun area => decide (area.id = id))

/-- reorderStorageAreas from part_000: look each given id up in the map of
existing areas, drop the misses, renumber order := index in the result. -/
def reorderStorageAreas (prev : List StorageArea) (ids : List String) : List StorageArea :=
  renumberAreas (ids.filterMap (fun id => areaLookup prev id))

/-- The merge predicate of addItem: same area, same lowercased name, not
opened, same expiry date. -/
def itemMatches (storageAreaId : String) (trimmedName : String)
    (expiryDate : Option Int) (item : PantryItem) : Bool :=
  decide (item.storageAreaId = storageAreaId ∧
          lowerStr item.name = lowerStr trimmedName ∧
          item.isOpened = false ∧
          item.expiryDate = expiryDate)

/-- The findIndex-and-increment step of addItem: increment the quantity of
the first item satisfying p, returning none when no item matches. -/
def mergeAdd (q : Int) (p : PantryItem → Bool) : List PantryItem → Option (List PantryItem)
  | [] => none
  | item :: rest =>
    if p item then some ({ item with quantity := item.quantity + q } :: rest)
    else (mergeAdd q p rest).map (fun l => item :: l)

/-- addItem from part_000: no-op when the trimmed name is empty or the
quantity is below 1; else merge into the first matching unopened item, or
append a fresh unopened item. -/
def addItem (prev : List PantryItem) (freshId : String) (now : Int)
    (name : String) (quantity : Int) (storageAreaId : String)
    (expiryDate : Option Int) : List PantryItem :=
  let trimmedName := jsTrim name
  if trimmedName = "" ∨ quantity < 1 then prev
  else
    match mergeAdd quantity (itemMatches storageAreaId trimmedName expiryDate) prev with
    | some updated => updated
    | none =>
        prev ++ [{ id := freshId, name := trimmedName, quantity := quantity,
                   storageAreaId := storageAreaId, createdAt := now,
                   isOpened := false, openedAt := none, expiryDate := expiryDate }]

/-- updateItemQuantity from part_000: quantity below 1 filters the item
out, otherwise the matching item gets the new quantity. -/
def updateItemQuantity (prev : List PantryItem) (id : String)
    (quantity : Int) : List PantryItem :=
  if quantity < 1 then prev.filter (fun item => decide (item.id ≠ id))
  else prev.map (fun item => if item.id = id then { item with quantity := quantity } else item)

/-- removeItem from part_000: unconditional filter on the id. -/
def removeItem (prev : List PantryItem) (id : String) : List PantryItem :=
  prev.filter (fun item => decide (item.id ≠ id))

/-- The findIndex step of openItem: first item with the given id. -/
def firstWithId (prev : List PantryItem) (id : String) : Option PantryItem :=
  prev.find? (fun item => decide (item.id = id))

/-- The expiry recomputation block of openItem, on day indices: daysLeft is
the exact whole-day difference of the two midnights (the Math.ceil of the
code is the identity on it); when more than one day is left, the new expiry
is today plus max 1 (floor of half the days left), otherwise unchanged. -/
def computeNewExpiry (today : Int) (expiryDate : Option Int) : Option Int :=
  match expiryDate with
  | none => none
  | some e =>
      let daysLeft := e - today
      if 1 < daysLeft then some (today + max 1 (daysLeft / 2)) else some e

/-- Mark a record opened: set isOpened, openedAt := now, and the
recomputed expiry, leaving every other field alone. -/
def markOpened (now : Int) (newExpiry : Option Int) (item : PantryItem) : PantryItem :=
  { item with isOpened := true, openedAt := some now, expiryDate := newExpiry }

/-- The updated[itemIndex] assignment of the split branch: subtract q from
the quantity of the first item with the given id. -/
def decFirst (id : String) (q : Int) : List PantryItem → List PantryItem
  | [] => []
  | item :: rest =>
      if item.id = id then { item with quantity := item.quantity - q } :: rest
      else item :: decFirst id q rest

/-- Body of openItem once the item was found. Full open (quantityToOpen at
least the quantity) marks every record with that id opened in place; a
partial open decrements the original and appends a fresh opened record
sharing name, storageAreaId and createdAt. -/
def openItemFound (prev : List PantryItem) (id : String) (quantityToOpen : Int)
    (freshId : String) (now : Int) (today : Int) (item : PantryItem) : List PantryItem :=
  let newExpiryDate := computeNewExpiry today item.expiryDate
  if item.quantity ≤ quantityToOpen then
    prev.map (fun itm => if itm.id = id then markOpened now newExpiryDate itm else itm)
  else
    decFirst id quantityToOpen prev ++
      [{ id := freshId, name := item.name, quantity := quantityToOpen,
         storageAreaId := item.storageAreaId, createdAt := item.createdAt,
         isOpened := true, openedAt := some now, expiryDate := newExpiryDate }]

/-- openItem from part_000: silently return the unchanged list when the id
is absent, else dispatch on full versus partial open. -/
def openItem (prev : List PantryItem) (id : String) (quantityToOpen : Int)
    (freshId : String) (now : Int) (today : Int) : List PantryItem :=
  match firstWithId prev id with
  | none => prev
  | some item => openItemFound prev id quantityToOpen freshId now today item

/-- The two collections owned by the store facade. -/
structure StoreState where
  storageAreas : List StorageArea
  items : List PantryItem
  deriving DecidableEq

/-- deleteStorageArea at the store level: remove and renumber the areas,
and cascade-remove every item referencing the deleted id. -/
def deleteStorageArea (s : StoreState) (id : String) : StoreState :=
  { storageAreas := deleteStorageAreaAreas s.storageAreas id,
    items := s.items.filter (fun item => decide (item.storageAreaId ≠ id)) }

/-- One mutation command of the store facade, with the impure inputs
(fresh ids, clock readings) made explicit. -/
inductive StoreOp where
  | addArea (freshId : String) (name : String) (icon : String) (color : String)
  | updateArea (id : String) (u : AreaUpdates)
  | deleteArea (id : String)
  | reorderAreas (ids : List String)
  | addItemOp (freshId : String) (now : Int) (name : String) (quantity : Int)
      (storageAreaId : String) (expiryDate : Option Int)
  | updateQuantityOp (id : String) (quantity : Int)
  | removeItemOp (id : String)
  | openItemOp (id : String) (quantityToOpen : Int) (freshId : String)
      (now : Int) (today : Int)
  deriving DecidableEq

/-- Dispatch of a store command to the registry or ledger operation. -/
def applyOp (s : StoreState) : StoreOp → StoreState
  | .addArea freshId name icon color =>
      { s with storageAreas := addStorageArea s.storageAreas freshId name icon color }
  | .updateArea id u =>
      { s with storageAreas := updateStorageArea s.storageAreas id u }
  | .deleteArea id => deleteStorageArea s id
  | .reorderAreas ids =>
      { s with storageAreas := reorderStorageAreas s.storageAreas ids }
  | .addItemOp freshId now name quantity storageAreaId expiryDate =>
      { s with items := addItem s.items freshId now name quantity storageAreaId expiryDate }
  | .updateQuantityOp id quantity =>
      { s with items := updateItemQuantity s.items id quantity }
  | .removeItemOp id => { s with items := removeItem s.items id }
  | .openItemOp id quantityToOpen freshId now today =>
      { s with items := openItem s.items id quantityToOpen freshId now today }

/-- Referential integrity: every item points at an existing area. -/
def refsOK (s : StoreState) : Prop :=
  ∀ item ∈ s.items, ∃ area ∈ s.storageAreas, area.id = item.storageAreaId

/-- Every item has quantity at least 1. -/
def posQty (items : List PantryItem) : Prop :=
  ∀ item ∈ items, 1 ≤ item.quantity

/-- The list [k, k+1, ..., k+n-1] of consecutive integers. -/
def intRange (k : Int) : Nat → List Int
  | 0 => []
  | n + 1 => k :: intRange (k + 1) n

/-- The order multiset invariant of the registry: the order values are a
permutation of 0..n-1. -/
def ordersPerm (l : List StorageArea) : Prop :=
  List.Perm (l.map StorageArea.order) (intRange 0 l.length)

/-- The stronger positional form the code actually maintains: the area at
position i carries order i. -/
def ordersSeq (l : List StorageArea) : Prop :=
  ∀ i (h : i < l.length), (l.get ⟨i, h⟩).order = (i : Int)

/-- The caller contract the spec states for openItem: the requested
quantity is at least 1 and at most the quantity of the addressed item. -/
def qtyContractOK (s : StoreState) : StoreOp → Prop
  | .openItemOp id quantityToOpen _ _ _ =>
      1 ≤ quantityToOpen ∧
      ∀ item, firstWithId s.items id = some item → quantityToOpen ≤ item.quantity
  | _ => True

/-- The caller obligations under which referential integrity is preserved:
addItem is called with an existing area id, and reorderStorageAreas with a
list containing every existing area id. -/
def refsContractOK (s : StoreState) : StoreOp → Prop
  | .addItemOp _ _ _ _ storageAreaId _ =>
      ∃ area ∈ s.storageAreas, area.id = storageAreaId
  | .reorderAreas ids => ∀ area ∈ s.storageAreas, area.id ∈ ids
  | _ => True

/-- Commands that do not smuggle an order value through updateStorageArea. -/
def orderContractOK : StoreOp → Prop
  | .updateArea _ u => u.order = none
  | _ => True

instance (s : StoreState) : Decidable (refsOK s) := by
  unfold refsOK; infer_instance

instance (items : List PantryItem) : Decidable (posQty items) := by
  unfold posQty; infer_instance

instance (l : List StorageArea) : Decidable (ordersPerm l) := by
  unfold ordersPerm; infer_instance

instance (l : List StorageArea) : Decidable (ordersSeq l) := by
  unfold ordersSeq; infer_instance

/-- States reachable from the empty store by commands respecting a given
caller contract. -/
inductive Reachable (good : StoreState → StoreOp → Prop) : StoreState → Prop where
  | init : Reachable good { storageAreas := [], items := [] }
  | step {s : StoreState} {op : StoreOp} :
      Reachable good s → good s op → Reachable good (applyOp s op)

/-- An area with its order field zeroed, to compare areas up to order. -/
def eraseOrder (a : StorageArea) : StorageArea := { a with order := 0 }

/-- An updates object carrying only an order value. -/
def orderOnlyUpdate (k : Int) : AreaUpdates :=
  { name := none, icon := none, color := none, order := some k }

/-- Demo area with id a at order 0. -/
def areaA0 : StorageArea :=
  { id := "a", name := "A", icon := "box", color := "blue", order := 0 }

/-- Demo area with id b at order 1. -/
def areaB1 : StorageArea :=
  { id := "b", name := "B", icon := "home", color := "rose", order := 1 }

/-- Demo area with id c at order 2. -/
def areaC2 : StorageArea :=
  { id := "c", name := "C", icon := "archive", color := "amber", order := 2 }

/-- Demo unopened item: two units of Milk in the fridge. -/
def milk2 : PantryItem :=
  { id := "i1", name := "Milk", quantity := 2, storageAreaId := "fridge",
    createdAt := 10, isOpened := false, openedAt := none, expiryDate := none }

/-- Demo unopened item: five units of Juice. -/
def juice5 : PantryItem :=
  { id := "j1", name := "Juice", quantity := 5, storageAreaId := "fridge",
    createdAt := 2, isOpened := false, openedAt := none, expiryDate := none }

/-- Demo unopened item with an expiry date ten days out. -/
def bread1 : PantryItem :=
  { id := "b1", name := "Bread", quantity := 1, storageAreaId := "pantry",
    createdAt := 4, isOpened := false, openedAt := none, expiryDate := some 10 }

/-- Demo item that is already opened. -/
def openedMilk : PantryItem :=
  { id := "m", name := "Milk", quantity := 2, storageAreaId := "fridge",
    createdAt := 0, isOpened := true, openedAt := some 1, expiryDate := none }

/-- Demo item with id a and quantity 3. -/
def eggs3 : PantryItem :=
  { id := "a", name := "Eggs", quantity := 3, storageAreaId := "fridge",
    createdAt := 1, isOpened := false, openedAt := none, expiryDate := none }

section Helpers

/-- A successful find? splits the list at the first hit. -/
theorem find?_split {α : Type} {p : α → Bool} {l : List α} {a : α}
    (h : l.find? p = some a) :
    ∃ l1 l2, l = l1 ++ a :: l2 ∧ ∀ x ∈ l1, p x = false := by
  induction l with
  | nil => simp [List.find?] at h
  | cons b t ih =>
    by_cases hb : p b
    · rw [List.find?_cons_of_pos t hb] at h
      cases h
      exact ⟨[], t, rfl, by simp⟩
    · rw [List.find?_cons_of_neg t hb] at h
      obtain ⟨l1, l2, rfl, hl1⟩ := ih h
      refine ⟨b :: l1, l2, rfl, ?_⟩
      intro x hx
      rcases List.mem_cons.mp hx with rfl | hx2
      · simpa using hb
      · exact hl1 x hx2

/-- mergeAdd on an explicit split at the first match. -/
theorem mergeAdd_append (q : Int) (p : PantryItem → Bool) {l1 : List PantryItem}
    (h1 : ∀ x ∈ l1, p x = false) {a : PantryItem} (ha : p a = true)
    (l2 : List PantryItem) :
    mergeAdd q p (l1 ++ a :: l2) =
      some (l1 ++ { a with quantity := a.quantity + q } :: l2) := by
  induction l1 with
  | nil => simp [mergeAdd, ha]
  | cons x t ih =>
    have hx : p x = false := h1 x (List.mem_cons_self x t)
    simp [mergeAdd, hx, ih (fun y hy => h1 y (List.mem_cons_of_mem x hy))]

/-- mergeAdd misses exactly when nothing matches. -/
theorem mergeAdd_eq_none {q : Int} {p : PantryItem → Bool} {l : List PantryItem}
    (h : ∀ x ∈ l, p x = false) : mergeAdd q p l = none := by
  induction l with
  | nil => rfl
  | cons x t ih =>
    simp [mergeAdd, h x (List.mem_cons_self x t),
      ih (fun y hy => h y (List.mem_cons_of_mem x hy))]

/-- A successful mergeAdd is an increment of the first matching item. -/
theorem mergeAdd_some_split {q : Int} {p : PantryItem → Bool}
    {l r : List PantryItem} (h : mergeAdd q p l = some r) :
    ∃ l1 a l2, l = l1 ++ a :: l2 ∧ p a = true ∧ (∀ x ∈ l1, p x = false) ∧
      r = l1 ++ { a with quantity := a.quantity + q } :: l2 := by
  induction l generalizing r with
  | nil => simp [mergeAdd] at h
  | cons b t ih =>
    by_cases hb : p b
    · simp only [mergeAdd, if_pos hb, Option.some.injEq] at h
      exact ⟨[], b, t, rfl, hb, by simp, h.symm⟩
    · simp only [mergeAdd, if_neg hb] at h
      rw [Option.map_eq_some'] at h
      obtain ⟨r0, hr0, rfl⟩ := h
      obtain ⟨l1, a, l2, rfl, hpa, hl1, rfl⟩ := ih hr0
      refine ⟨b :: l1, a, l2, rfl, hpa, ?_, rfl⟩
      intro x hx
      rcases List.mem_cons.mp hx with rfl | hx2
      · simpa using hb
      · exact hl1 x hx2

/-- decFirst on an explicit split at the first id hit. -/
theorem decFirst_append {id : String} {q : Int} {l1 : List PantryItem}
    (h1 : ∀ x ∈ l1, x.id ≠ id) {a : PantryItem} (ha : a.id = id)
    (l2 : List PantryItem) :
    decFirst id q (l1 ++ a :: l2) =
      l1 ++ { a with quantity := a.quantity - q } :: l2 := by
  induction l1 with
  | nil => simp [decFirst, ha]
  | cons x t ih =>
    simp [decFirst, h1 x (List.mem_cons_self x t),
      ih (fun y hy => h1 y (List.mem_cons_of_mem x hy))]

/-- Splitting a singleton list forces both side lists empty. -/
theorem singleton_split {α : Type} {a b : α} {l1 l2 : List α}
    (h : [a] = l1 ++ b :: l2) : l1 = [] ∧ b = a ∧ l2 = [] := by
  cases l1 with
  | nil =>
    simp only [List.nil_append] at h
    injection h with h1 h2
    exact ⟨rfl, h1.symm, h2.symm⟩
  | cons x t =>
    simp only [List.cons_append] at h
    injection h with h1 h2
    exact absurd h2.symm (by simp)

/-- The order values written by renumberFrom are consecutive integers. -/
theorem renumberFrom_map_order (k : Int) (l : List StorageArea) :
    (renumberFrom k l).map StorageArea.order = intRange k l.length := by
  induction l generalizing k with
  | nil => rfl
  | cons a t ih => simp [renumberFrom, intRange, ih]

/-- renumberFrom does not touch ids. -/
theorem renumberFrom_map_id (k : Int) (l : List StorageArea) :
    (renumberFrom k l).map StorageArea.id = l.map StorageArea.id := by
  induction l generalizing k with
  | nil => rfl
  | cons a t ih => simp [renumberFrom, ih]

/-- renumberFrom keeps the length. -/
theorem renumberFrom_length (k : Int) (l : List StorageArea) :
    (renumberFrom k l).length = l.length := by
  induction l generalizing k with
  | nil => rfl
  | cons a t ih => simp [renumberFrom, ih]

/-- Renumbering a list that already carries consecutive orders is the
identity. -/
theorem renumberFrom_eq_self {l : List StorageArea} {k : Int}
    (h : ∀ i (hi : i < l.length), (l.get ⟨i, hi⟩).order = k + i) :
    renumberFrom k l = l := by
  induction l generalizing k with
  | nil => rfl
  | cons a t ih =>
    have h0 : a.order = k := by
      have := h 0 (by simp)
      simpa using this
    have ht : renumberFrom (k + 1) t = t := by
      apply ih
      intro i hi
      have hs := h (i + 1) (by simpa using Nat.succ_lt_succ hi)
      simp only [List.get_eq_getElem, List.getElem_cons_succ] at hs ⊢
      push_cast at hs ⊢
      omega
    simp only [renumberFrom, ht]
    rw [← h0]

/-- renumberFrom keeps each area up to its order field. -/
theorem mem_renumberFrom {k : Int} {l : List StorageArea} {a : StorageArea}
    (h : a ∈ renumberFrom k l) : ∃ b ∈ l, eraseOrder a = eraseOrder b := by
  induction l generalizing k with
  | nil => simp [renumberFrom] at h
  | cons x t ih =>
    simp only [renumberFrom, List.mem_cons] at h
    rcases h with rfl | h2
    · exact ⟨x, List.mem_cons_self x t, rfl⟩
    · obtain ⟨b, hb, he⟩ := ih h2
      exact ⟨b, List.mem_cons_of_mem x hb, he⟩

/-- intRange grows at the tail. -/
theorem intRange_snoc (k : Int) (n : Nat) :
    intRange k (n + 1) = intRange k n ++ [k + n] := by
  induction n generalizing k with
  | zero => simp [intRange]
  | succ m ih =>
    rw [intRange, ih, intRange]
    have hc : (k + 1 + (m : Int)) = k + ((m + 1 : Nat) : Int) := by push_cast; ring
    simp [hc]

/-- A hit of the id map of reorderStorageAreas is an existing area with the
looked up id. -/
theorem areaLookup_some {prev : List StorageArea} {id : String} {a : StorageArea}
    (h : areaLookup prev id = some a) : a ∈ prev ∧ a.id = id := by
  unfold areaLookup at h
  refine ⟨List.mem_reverse.mp (List.mem_of_find?_eq_some h), ?_⟩
  have := List.find?_some h
  simpa using this

/-- When some existing area carries the id, the lookup hits. -/
theorem areaLookup_hits {prev : List StorageArea} {id : String}
    (h : ∃ a ∈ prev, a.id = id) :
    ∃ b, areaLookup prev id = some b ∧ b.id = id := by
  obtain ⟨a, ha, haid⟩ := h
  cases hl : areaLookup prev id with
  | none =>
    unfold areaLookup at hl
    rw [List.find?_eq_none] at hl
    exact absurd (by simpa using haid)
      (by simpa using hl a (List.mem_reverse.mpr ha))
  | some b => exact ⟨b, rfl, (areaLookup_some hl).2⟩

/-- Mapping an attribute through a conditional rewrite that preserves it. -/
theorem map_attr_of_preserve {α β : Type} (g : α → β) (f : α → α)
    (p : α → Prop) [DecidablePred p] (hf : ∀ a, g (f a) = g a) (l : List α) :
    (l.map (fun a => if p a then f a else a)).map g = l.map g := by
  induction l with
  | nil => rfl
  | cons a t ih => by_cases h : p a <;> simp [h, hf, ih]

/-- Equal attribute maps transport membership up to the attribute. -/
theorem exists_of_map_attr_eq {α β : Type} {g : α → β} {l1 l2 : List α}
    (h : l1.map g = l2.map g) {b : α} (hb : b ∈ l1) :
    ∃ c ∈ l2, g c = g b := by
  have hmem : g b ∈ l2.map g := h ▸ List.mem_map_of_mem g hb
  obtain ⟨c, hc, hgc⟩ := List.mem_map.mp hmem
  exact ⟨c, hc, hgc⟩

/-- find? by id commutes with the conditional opening map of openItem. -/
theorem firstWithId_map_mark (prev : List PantryItem) (id : String)
    (now : Int) (nx : Option Int) :
    firstWithId (prev.map (fun itm => if itm.id = id then markOpened now nx itm else itm)) id
      = (firstWithId prev id).map (markOpened now nx) := by
  induction prev with
  | nil => rfl
  | cons a t ih =>
    by_cases h : a.id = id
    · rw [List.map_cons, if_pos h]
      unfold firstWithId
      rw [List.find?_cons_of_pos _ (by simp [markOpened, h]),
        List.find?_cons_of_pos _ (by simp [h])]
      rfl
    · rw [List.map_cons, if_neg h]
      unfold firstWithId at ih ⊢
      rw [List.find?_cons_of_neg _ (by simp [h]),
        List.find?_cons_of_neg _ (by simp [h])]
      exact ih

/-- updateStorageArea does not touch ids. -/
theorem updateStorageArea_map_id (prev : List StorageArea) (id : String)
    (u : AreaUpdates) :
    (updateStorageArea prev id u).map StorageArea.id = prev.map StorageArea.id := by
  unfold updateStorageArea
  exact map_attr_of_preserve StorageArea.id (fun a => applyAreaUpdates a u)
    (fun a => a.id = id) (fun a => rfl) prev

/-- Without an order field in the updates, updateStorageArea does not
touch orders. -/
theorem updateStorageArea_map_order {u : AreaUpdates} (hu : u.order = none)
    (prev : List StorageArea) (id : String) :
    (updateStorageArea prev id u).map StorageArea.order = prev.map StorageArea.order := by
  unfold updateStorageArea
  exact map_attr_of_preserve StorageArea.order (fun a => applyAreaUpdates a u)
    (fun a => a.id = id) (fun a => by simp [applyAreaUpdates, hu]) prev

/-- When the given ids all exist, the lookup pass of reorderStorageAreas
resolves them in order. -/
theorem filterMap_lookup_map_id {prev : List StorageArea} {ids : List String}
    (h : ∀ id ∈ ids, ∃ a ∈ prev, a.id = id) :
    (ids.filterMap (fun id => areaLookup prev id)).map StorageArea.id = ids := by
  induction ids with
  | nil => rfl
  | cons i t ih =>
    obtain ⟨b, hb, hbid⟩ := areaLookup_hits (h i (List.mem_cons_self i t))
    rw [List.filterMap_cons_some hb]
    simp [hbid, ih (fun j hj => h j (List.mem_cons_of_mem i hj))]

/-- With no hypothesis at all, the lookup pass of reorderStorageAreas
resolves, in the given sequence, exactly those given ids whose lookup
hits: unknown ids are dropped and every listed existing id is kept. -/
theorem filterMap_lookup_map_id_filter (prev : List StorageArea) (ids : List String) :
    (ids.filterMap (fun id => areaLookup prev id)).map StorageArea.id =
      ids.filter (fun id => (areaLookup prev id).isSome) := by
  induction ids with
  | nil => rfl
  | cons i t ih =>
    cases hl : areaLookup prev i with
    | none =>
      rw [List.filterMap_cons_none hl]
      simp [List.filter_cons, hl, ih]
    | some b =>
      rw [List.filterMap_cons_some hl]
      have hbid : b.id = i := (areaLookup_some hl).2
      simp [List.filter_cons, hl, hbid, ih]

/-- Each area surviving the lookup pass is an existing listed area. -/
theorem mem_filterMap_lookup {prev : List StorageArea} {ids : List String}
    {a : StorageArea}
    (h : a ∈ ids.filterMap (fun id => areaLookup prev id)) :
    a ∈ prev ∧ a.id ∈ ids := by
  obtain ⟨i, hi, hl⟩ := List.mem_filterMap.mp h
  obtain ⟨hmem, hid⟩ := areaLookup_some hl
  exact ⟨hmem, hid ▸ hi⟩

/-- A conditional rewrite that matches nothing is the identity map. -/
theorem map_if_no_match {α : Type} (f : α → α) (p : α → Prop) [DecidablePred p]
    (l : List α) (h : ∀ a ∈ l, ¬ p a) :
    l.map (fun a => if p a then f a else a) = l := by
  induction l with
  | nil => rfl
  | cons a t ih =>
    simp [h a (List.mem_cons_self a t),
      ih (fun y hy => h y (List.mem_cons_of_mem a hy))]

/-- On a full open, openItem is the conditional opening map. -/
theorem openItem_full_eq {prev : List PantryItem} {id : String} {q : Int}
    {freshId : String} {now today : Int} {item : PantryItem}
    (hfind : firstWithId prev id = some item) (hq : item.quantity ≤ q) :
    openItem prev id q freshId now today =
      prev.map (fun itm => if itm.id = id then
        markOpened now (computeNewExpiry today item.expiryDate) itm else itm) := by
  unfold openItem
  rw [hfind]
  show openItemFound prev id q freshId now today item = _
  simp only [openItemFound]
  rw [if_pos hq]

/-- Every record of decFirst keeps the area reference of a source record. -/
theorem mem_decFirst {id : String} {q : Int} {l : List PantryItem}
    {x : PantryItem} (hx : x ∈ decFirst id q l) :
    ∃ y ∈ l, x.storageAreaId = y.storageAreaId := by
  induction l with
  | nil => simp [decFirst] at hx
  | cons a t ih =>
    unfold decFirst at hx
    by_cases h : a.id = id
    · rw [if_pos h] at hx
      rcases List.mem_cons.mp hx with rfl | h2
      · exact ⟨a, List.mem_cons_self a t, rfl⟩
      · exact ⟨x, List.mem_cons_of_mem a h2, rfl⟩
    · rw [if_neg h] at hx
      rcases List.mem_cons.mp hx with rfl | h2
      · exact ⟨x, List.mem_cons_self x t, rfl⟩
      · obtain ⟨y, hy, hxy⟩ := ih h2
        exact ⟨y, List.mem_cons_of_mem a hy, hxy⟩

/-- Every record produced by addItem references either an area some source
record already referenced, or the area passed to the call. -/
theorem mem_addItem {prev : List PantryItem} {freshId : String} {now : Int}
    {name : String} {q : Int} {areaId : String} {exp : Option Int}
    {x : PantryItem} (hx : x ∈ addItem prev freshId now name q areaId exp) :
    (∃ y ∈ prev, x.storageAreaId = y.storageAreaId) ∨ x.storageAreaId = areaId := by
  unfold addItem at hx
  by_cases hg : jsTrim name = "" ∨ q < 1
  · rw [if_pos hg] at hx
    exact .inl ⟨x, hx, rfl⟩
  · rw [if_neg hg] at hx
    cases hm : mergeAdd q (itemMatches areaId (jsTrim name) exp) prev with
    | some r =>
      rw [hm] at hx
      replace hx : x ∈ r := hx
      obtain ⟨l1, a, l2, hsplit, hpa, hl1, hr⟩ := mergeAdd_some_split hm
      rw [hr] at hx
      rcases List.mem_append.mp hx with h1 | h2
      · exact .inl ⟨x, by rw [hsplit]; exact List.mem_append_left _ h1, rfl⟩
      · rcases List.mem_cons.mp h2 with rfl | h3
        · exact .inl ⟨a, by
            rw [hsplit]; exact List.mem_append_right _ (List.mem_cons_self a l2), rfl⟩
        · exact .inl ⟨x, by
            rw [hsplit]; exact List.mem_append_right _ (List.mem_cons_of_mem a h3), rfl⟩
    | none =>
      rw [hm] at hx
      replace hx : x ∈ prev ++
        [{ id := freshId, name := jsTrim name, quantity := q,
           storageAreaId := areaId, createdAt := now, isOpened := false,
           openedAt := none, expiryDate := exp }] := hx
      rcases List.mem_append.mp hx with h1 | h2
      · exact .inl ⟨x, h1, rfl⟩
      · have hx2 := List.mem_singleton.mp h2
        exact .inr (by rw [hx2])

/-- Every record produced by openItem references an area some source
record already referenced. -/
theorem mem_openItem {prev : List PantryItem} {id : String} {q : Int}
    {freshId : String} {now today : Int} {x : PantryItem}
    (hx : x ∈ openItem prev id q freshId now today) :
    ∃ y ∈ prev, x.storageAreaId = y.storageAreaId := by
  unfold openItem at hx
  cases hf : firstWithId prev id with
  | none =>
    rw [hf] at hx
    exact ⟨x, hx, rfl⟩
  | some item =>
    rw [hf] at hx
    replace hx : x ∈ openItemFound prev id q freshId now today item := hx
    have hitem : item ∈ prev := by
      unfold firstWithId at hf
      exact List.mem_of_find?_eq_some hf
    simp only [openItemFound] at hx
    by_cases hq2 : item.quantity ≤ q
    · rw [if_pos hq2] at hx
      obtain ⟨y, hy, hxy⟩ := List.mem_map.mp hx
      refine ⟨y, hy, ?_⟩
      rw [← hxy]
      by_cases hid : y.id = id <;> simp [hid, markOpened]
    · rw [if_neg hq2] at hx
      rcases List.mem_append.mp hx with h1 | h2
      · obtain ⟨y, hy, hxy⟩ := mem_decFirst h1
        exact ⟨y, hy, hxy⟩
      · have hx2 := List.mem_singleton.mp h2
        exact ⟨item, hitem, by rw [hx2]⟩

/-- addItem preserves positivity of quantities. -/
theorem posQty_addItem {prev : List PantryItem} {freshId : String} {now : Int}
    {name : String} {q : Int} {areaId : String} {exp : Option Int}
    (hpos : posQty prev) :
    posQty (addItem prev freshId now name q areaId exp) := by
  unfold addItem
  by_cases hg : jsTrim name = "" ∨ q < 1
  · rw [if_pos hg]; exact hpos
  · rw [if_neg hg]
    have hq : 1 ≤ q := by
      push_neg at hg
      omega
    cases hm : mergeAdd q (itemMatches areaId (jsTrim name) exp) prev with
    | some r =>
      obtain ⟨l1, a, l2, hsplit, hpa, hl1, hr⟩ := mergeAdd_some_split hm
      intro x hx
      replace hx : x ∈ r := hx
      rw [hr] at hx
      have hprev : posQty (l1 ++ a :: l2) := hsplit ▸ hpos
      rcases List.mem_append.mp hx with h1 | h2
      · exact hprev x (List.mem_append_left _ h1)
      · rcases List.mem_cons.mp h2 with rfl | h3
        · have ha : 1 ≤ a.quantity :=
            hprev a (List.mem_append_right _ (List.mem_cons_self a l2))
          show 1 ≤ a.quantity + q
          omega
        · exact hprev x (List.mem_append_right _ (List.mem_cons_of_mem a h3))
    | none =>
      intro x hx
      replace hx : x ∈ prev ++
        [{ id := freshId, name := jsTrim name, quantity := q,
           storageAreaId := areaId, createdAt := now, isOpened := false,
           openedAt := none, expiryDate := exp }] := hx
      rcases List.mem_append.mp hx with h1 | h2
      · exact hpos x h1
      · have hx2 := List.mem_singleton.mp h2
        rw [hx2]
        exact hq

/-- openItem preserves positivity of quantities whenever the requested
quantity is at least 1. -/
theorem posQty_openItem {prev : List PantryItem} {id : String} {q : Int}
    {freshId : String} {now today : Int}
    (hpos : posQty prev) (hq1 : 1 ≤ q) :
    posQty (openItem prev id q freshId now today) := by
  unfold openItem
  cases hf : firstWithId prev id with
  | none => exact hpos
  | some item =>
    show posQty (openItemFound prev id q freshId now today item)
    simp only [openItemFound]
    by_cases hq2 : item.quantity ≤ q
    · rw [if_pos hq2]
      intro x hx
      obtain ⟨y, hy, hxy⟩ := List.mem_map.mp hx
      have hyq := hpos y hy
      rw [← hxy]
      by_cases hid : y.id = id <;> simp [hid, markOpened] <;> omega
    · rw [if_neg hq2]
      push_neg at hq2
      unfold firstWithId at hf
      obtain ⟨l1, l2, hsplit, hl1⟩ := find?_split hf
      have hl1b : ∀ x ∈ l1, x.id ≠ id := fun x hx => by simpa using hl1 x hx
      have hitemid : item.id = id := by simpa using List.find?_some hf
      rw [hsplit, decFirst_append hl1b hitemid l2]
      intro x hx
      have hprev : posQty (l1 ++ item :: l2) := hsplit ▸ hpos
      rcases List.mem_append.mp hx with h1 | h2
      · rcases List.mem_append.mp h1 with ha | hb
        · exact hprev x (List.mem_append_left _ ha)
        · rcases List.mem_cons.mp hb with rfl | hc
          · show 1 ≤ item.quantity - q
            omega
          · exact hprev x (List.mem_append_right _ (List.mem_cons_of_mem _ hc))
      · have hx2 := List.mem_singleton.mp h2
        rw [hx2]
        exact hq1

/-- Positivity of quantities is preserved by every store command whose
openItem calls respect the quantity contract. -/
theorem posQty_applyOp (s : StoreState) (op : StoreOp)
    (hpos : posQty s.items) (hop : qtyContractOK s op) :
    posQty (applyOp s op).items := by
  cases op with
  | addArea freshId name icon color => exact hpos
  | updateArea id u => exact hpos
  | reorderAreas ids => exact hpos
  | deleteArea id =>
    intro x hx
    have hx2 := List.mem_filter.mp hx
    exact hpos x hx2.1
  | addItemOp freshId now name q areaId exp => exact posQty_addItem hpos
  | updateQuantityOp id q =>
    show posQty (updateItemQuantity s.items id q)
    unfold updateItemQuantity
    by_cases hq : q < 1
    · rw [if_pos hq]
      intro x hx
      exact hpos x (List.mem_filter.mp hx).1
    · rw [if_neg hq]
      intro x hx
      obtain ⟨y, hy, hxy⟩ := List.mem_map.mp hx
      have hyq := hpos y hy
      rw [← hxy]
      by_cases hid : y.id = id <;> simp [hid] <;> omega
  | removeItemOp id =>
    intro x hx
    exact hpos x (List.mem_filter.mp hx).1
  | openItemOp id q freshId now today => exact posQty_openItem hpos hop.1

/-- Referential integrity is preserved by every store command respecting
the reference contract. -/
theorem refsOK_applyOp (s : StoreState) (op : StoreOp)
    (hs : refsOK s) (hop : refsContractOK s op) : refsOK (applyOp s op) := by
  cases op with
  | addArea freshId name icon color =>
    intro item hitem
    obtain ⟨a, ha, haid⟩ := hs item hitem
    refine ⟨a, ?_, haid⟩
    show a ∈ addStorageArea s.storageAreas freshId name icon color
    unfold addStorageArea
    by_cases hn : jsTrim name = ""
    · rw [if_pos hn]; exact ha
    · rw [if_neg hn]; exact List.mem_append_left _ ha
  | updateArea id u =>
    intro item hitem
    obtain ⟨a, ha, haid⟩ := hs item hitem
    obtain ⟨c, hc, hcid⟩ :=
      exists_of_map_attr_eq (updateStorageArea_map_id s.storageAreas id u).symm ha
    exact ⟨c, hc, hcid.trans haid⟩
  | deleteArea id =>
    intro item hitem
    have hitem2 := List.mem_filter.mp hitem
    have hne : item.storageAreaId ≠ id := by simpa using hitem2.2
    obtain ⟨a, ha, haid⟩ := hs item hitem2.1
    have hafilter : a ∈ s.storageAreas.filter (fun area => decide (area.id ≠ id)) := by
      rw [List.mem_filter]
      exact ⟨ha, by simp [haid, hne]⟩
    obtain ⟨c, hc, hcid⟩ :=
      exists_of_map_attr_eq (renumberFrom_map_id 0 _).symm hafilter
    exact ⟨c, hc, hcid.trans haid⟩
  | reorderAreas ids =>
    intro item hitem
    obtain ⟨a, ha, haid⟩ := hs item hitem
    obtain ⟨b, hb, hbid⟩ := areaLookup_hits ⟨a, ha, rfl⟩
    have hbmem : b ∈ ids.filterMap (fun id => areaLookup s.storageAreas id) :=
      List.mem_filterMap.mpr ⟨a.id, hop a ha, hb⟩
    obtain ⟨c, hc, hcid⟩ := exists_of_map_attr_eq (renumberFrom_map_id 0 _).symm hbmem
    exact ⟨c, hc, (hcid.trans hbid).trans haid⟩
  | addItemOp freshId now name q areaId exp =>
    intro item hitem
    rcases mem_addItem hitem with ⟨y, hy, hxy⟩ | hxa
    · obtain ⟨a, ha, haid⟩ := hs y hy
      exact ⟨a, ha, by rw [haid, hxy]⟩
    · obtain ⟨a, ha, haid⟩ := hop
      exact ⟨a, ha, by rw [haid, hxa]⟩
  | updateQuantityOp id q =>
    intro item hitem
    replace hitem : item ∈ updateItemQuantity s.items id q := hitem
    unfold updateItemQuantity at hitem
    by_cases hq : q < 1
    · rw [if_pos hq] at hitem
      exact hs item (List.mem_filter.mp hitem).1
    · rw [if_neg hq] at hitem
      obtain ⟨y, hy, hxy⟩ := List.mem_map.mp hitem
      obtain ⟨a, ha, haid⟩ := hs y hy
      refine ⟨a, ha, ?_⟩
      rw [haid, ← hxy]
      by_cases hid : y.id = id <;> simp [hid]
  | removeItemOp id =>
    intro item hitem
    exact hs item (List.mem_filter.mp hitem).1
  | openItemOp id q freshId now today =>
    intro item hitem
    obtain ⟨y, hy, hxy⟩ := mem_openItem hitem
    obtain ⟨a, ha, haid⟩ := hs y hy
    exact ⟨a, ha, by rw [haid, hxy]⟩

instance (s : StoreState) (op : StoreOp) : Decidable (refsContractOK s op) := by
  unfold refsContractOK
  cases op <;> infer_instance

instance (op : StoreOp) : Decidable (orderContractOK op) := by
  unfold orderContractOK
  cases op <;> infer_instance

end Helpers

section Claims

/-- C1: addItem with a non-empty trimmed name and quantity at least 1
merges into the first ledger item agreeing on area, case-insensitive name,
unopened status and expiry date, incrementing only its quantity (id and
createdAt preserved, every other item untouched, nothing appended), and
such a merge target is always unopened with the same expiry date; when no
item matches, a fresh unopened item is appended. -/
theorem addItem_spec (prev : List PantryItem) (freshId : String) (now : Int)
    (name : String) (q : Int) (areaId : String) (exp : Option Int)
    (hname : jsTrim name ≠ "") (hq : 1 ≤ q) :
    (∀ item, prev.find? (itemMatches areaId (jsTrim name) exp) = some item →
       item.isOpened = false ∧ item.expiryDate = exp ∧
       ∃ l1 l2, prev = l1 ++ item :: l2 ∧
         (∀ x ∈ l1, itemMatches areaId (jsTrim name) exp x = false) ∧
         addItem prev freshId now name q areaId exp =
           l1 ++ { item with quantity := item.quantity + q } :: l2) ∧
    (prev.find? (itemMatches areaId (jsTrim name) exp) = none →
       addItem prev freshId now name q areaId exp =
         prev ++ [{ id := freshId, name := jsTrim name, quantity := q,
                    storageAreaId := areaId, createdAt := now,
                    isOpened := false, openedAt := none, expiryDate := exp }]) := by
  have hguard : ¬ (jsTrim name = "" ∨ q < 1) := by
    push_neg
    exact ⟨hname, by omega⟩
  constructor
  · intro item hfind
    have hmatch := List.find?_some hfind
    have hfields : item.storageAreaId = areaId ∧
        lowerStr item.name = lowerStr (jsTrim name) ∧
        item.isOpened = false ∧ item.expiryDate = exp := by
      simpa [itemMatches] using hmatch
    obtain ⟨l1, l2, hsplit, hl1⟩ := find?_split hfind
    refine ⟨hfields.2.2.1, hfields.2.2.2, l1, l2, hsplit, hl1, ?_⟩
    simp only [addItem]
    rw [if_neg hguard, hsplit, mergeAdd_append q _ hl1 hmatch l2]
  · intro hnone
    have hall : ∀ x ∈ prev, itemMatches areaId (jsTrim name) exp x = false := by
      intro x hx
      have := List.find?_eq_none.mp hnone x hx
      simpa using this
    simp only [addItem]
    rw [if_neg hguard, mergeAdd_eq_none hall]

/-- C1 witness: adding two units of Milk to an empty ledger appends the
fresh unopened record. -/
theorem addItem_spec_witness :
    addItem [] "i1" 7 "Milk" 2 "fridge" none =
      [{ id := "i1", name := "Milk", quantity := 2, storageAreaId := "fridge",
         createdAt := 7, isOpened := false, openedAt := none, expiryDate := none }] := by
  have h := (addItem_spec [] "i1" 7 "Milk" 2 "fridge" none (by decide) (by decide)).2 rfl
  rw [h]
  decide

/-- C2 counterexample: the claim says the original record of a partial
open stays unopened, for every item. Opening 1 of an already opened
2-unit item (1 at least 1 and below the quantity 2) leaves the original
record opened, not unopened. -/
theorem openItem_split_opened_counterexample :
    openItem [openedMilk] "m" 1 "f2" 5 3 =
      [{ openedMilk with quantity := 1 },
       { id := "f2", name := "Milk", quantity := 1, storageAreaId := "fridge",
         createdAt := 0, isOpened := true, openedAt := some 5, expiryDate := none }] ∧
    (1:Int) ≤ 1 ∧ 1 < openedMilk.quantity ∧
    ({ openedMilk with quantity := 1 }).isOpened = true := by decide

/-- C2 amended: a partial open (1 at most quantityToOpen, quantityToOpen
below the quantity of the addressed item) splits the first record with the
given id into the original record — keeping id, createdAt, name,
storageAreaId, expiryDate AND its isOpened flag (so it stays unopened
exactly when it was unopened), with quantity decremented — and one
appended fresh record with the same name, storageAreaId and createdAt,
quantity = quantityToOpen, isOpened = true, openedAt set, and the
recomputed expiry date; every other item is unchanged. -/
theorem openItem_split_spec (prev : List PantryItem) (id : String) (q : Int)
    (freshId : String) (now : Int) (today : Int) (item : PantryItem)
    (hfind : firstWithId prev id = some item) (hq1 : 1 ≤ q)
    (hqlt : q < item.quantity) :
    item.id = id ∧
    ∃ l1 l2, prev = l1 ++ item :: l2 ∧ (∀ x ∈ l1, x.id ≠ id) ∧
      openItem prev id q freshId now today =
        (l1 ++ { item with quantity := item.quantity - q } :: l2) ++
          [{ id := freshId, name := item.name, quantity := q,
             storageAreaId := item.storageAreaId, createdAt := item.createdAt,
             isOpened := true, openedAt := some now,
             expiryDate := computeNewExpiry today item.expiryDate }] := by
  have hfind2 : prev.find? (fun it => decide (it.id = id)) = some item := by
    unfold firstWithId at hfind
    exact hfind
  have hid : item.id = id := by simpa using List.find?_some hfind2
  obtain ⟨l1, l2, hsplit, hl1⟩ := find?_split hfind2
  have hl1b : ∀ x ∈ l1, x.id ≠ id := fun x hx => by simpa using hl1 x hx
  refine ⟨hid, l1, l2, hsplit, hl1b, ?_⟩
  unfold openItem
  rw [hfind]
  show openItemFound prev id q freshId now today item = _
  simp only [openItemFound]
  rw [if_neg (by omega), hsplit, decFirst_append hl1b hid l2]

/-- C2 witness: opening 2 of 5 units of Juice leaves 3 unopened and
appends 2 opened units. -/
theorem openItem_split_spec_witness :
    openItem [juice5] "j1" 2 "f9" 7 0 =
      [{ juice5 with quantity := 3 },
       { id := "f9", name := "Juice", quantity := 2, storageAreaId := "fridge",
         createdAt := 2, isOpened := true, openedAt := some 7,
         expiryDate := none }] := by
  obtain ⟨hid, l1, l2, hsplit, hl1, hres⟩ :=
    openItem_split_spec [juice5] "j1" 2 "f9" 7 0 juice5 (by decide) (by decide) (by decide)
  obtain ⟨he1, he2, he3⟩ := singleton_split hsplit
  subst he1
  subst he3
  rw [hres]
  decide

/-- C3 counterexample: the claim says creating an item with a
storageAreaId absent from the registry is rejected before any mutation.
On an empty registry, addItem creates the item referencing the ghost area
and the resulting state violates referential integrity. -/
theorem invalid_reference_counterexample :
    (applyOp { storageAreas := [], items := [] }
        (StoreOp.addItemOp "i1" 0 "Milk" 1 "ghost" none)).items =
      [{ id := "i1", name := "Milk", quantity := 1, storageAreaId := "ghost",
         createdAt := 0, isOpened := false, openedAt := none,
         expiryDate := none }] ∧
    ¬ refsOK (applyOp { storageAreas := [], items := [] }
        (StoreOp.addItemOp "i1" 0 "Milk" 1 "ghost" none)) := by decide

/-- C3 amended: deleting an area removes every item referencing the
deleted id, and referential integrity is preserved by every store
operation PROVIDED the callers respect the reference contract (addItem is
called with an existing area id, reorderStorageAreas with a list covering
every existing area id); the code itself never rejects an addItem with a
nonexistent area, and reorderStorageAreas drops unlisted areas, so the
unconditioned claim fails. -/
theorem refs_invariant :
    (∀ (s : StoreState) (op : StoreOp),
       refsOK s → refsContractOK s op → refsOK (applyOp s op)) ∧
    (∀ (s : StoreState) (id : String),
       ∀ item ∈ (deleteStorageArea s id).items, item.storageAreaId ≠ id) := by
  refine ⟨refsOK_applyOp, ?_⟩
  intro s id item h
  replace h : item ∈ s.items.filter (fun it => decide (it.storageAreaId ≠ id)) := h
  have h2 := (List.mem_filter.mp h).2
  simpa using h2

/-- C3 witness: adding Milk to the existing fridge area keeps referential
integrity. -/
theorem refs_invariant_witness :
    refsOK (applyOp { storageAreas := [{ areaA0 with id := "fridge" }], items := [milk2] }
      (StoreOp.addItemOp "i9" 3 "Milk" 2 "fridge" none)) :=
  refs_invariant.1 _ _ (by decide) (by decide)

/-- C4 counterexample: the claim says the orders of the areas form exactly
0..n-1 after every registry operation on every reachable state. From the
reachable one-area state (order 0, a valid permutation), updateStorageArea
with an updates object carrying order 5 — a legal Partial update of the
source type — leaves the single area with order 5, not 0. -/
theorem orders_counterexample :
    ordersPerm ((applyOp { storageAreas := [], items := [] }
        (StoreOp.addArea "x" "Box" "box" "blue")).storageAreas) ∧
    ¬ ordersPerm ((applyOp (applyOp { storageAreas := [], items := [] }
          (StoreOp.addArea "x" "Box" "box" "blue"))
        (StoreOp.updateArea "x" (orderOnlyUpdate 5))).storageAreas) := by decide

/-- C4 amended: the order values remain a permutation of 0..n-1 after
every store operation except an updateStorageArea whose updates object
carries an order field (the source type Partial of Omit StorageArea id
admits one and the implementation applies it): addStorageArea appends
order = n, deleteStorageArea and reorderStorageAreas renumber from 0, and
an order-free update leaves all orders untouched. -/
theorem ordersPerm_preserved (s : StoreState) (op : StoreOp)
    (hs : ordersPerm s.storageAreas) (hop : orderContractOK op) :
    ordersPerm (applyOp s op).storageAreas := by
  cases op with
  | addArea freshId name icon color =>
    show ordersPerm (addStorageArea s.storageAreas freshId name icon color)
    simp only [addStorageArea]
    by_cases hn : jsTrim name = ""
    · rw [if_pos hn]; exact hs
    · rw [if_neg hn]
      unfold ordersPerm at hs ⊢
      rw [List.map_append, List.length_append]
      simp only [List.map_cons, List.map_nil, List.length_cons, List.length_nil]
      rw [intRange_snoc]
      have h0 : (0:Int) + (s.storageAreas.length : Int) = (s.storageAreas.length : Int) := by
        ring
      rw [h0]
      exact hs.append_right _
  | updateArea id u =>
    show ordersPerm (updateStorageArea s.storageAreas id u)
    have hu : u.order = none := hop
    unfold ordersPerm at hs ⊢
    rw [updateStorageArea_map_order hu]
    have hl : (updateStorageArea s.storageAreas id u).length = s.storageAreas.length := by
      simp [updateStorageArea]
    rw [hl]
    exact hs
  | deleteArea id =>
    show ordersPerm (deleteStorageAreaAreas s.storageAreas id)
    unfold ordersPerm deleteStorageAreaAreas renumberAreas
    rw [renumberFrom_map_order, renumberFrom_length]
  | reorderAreas ids =>
    show ordersPerm (reorderStorageAreas s.storageAreas ids)
    unfold ordersPerm reorderStorageAreas renumberAreas
    rw [renumberFrom_map_order, renumberFrom_length]
  | addItemOp freshId now name q areaId exp => exact hs
  | updateQuantityOp id q => exact hs
  | removeItemOp id => exact hs
  | openItemOp id q freshId now today => exact hs

/-- C4 witness: deleting area a from the two-area registry renumbers b to
order 0, a permutation of 0..0. -/
theorem ordersPerm_preserved_witness :
    ordersPerm ((applyOp { storageAreas := [areaA0, areaB1], items := [] }
        (StoreOp.deleteArea "a")).storageAreas) :=
  ordersPerm_preserved _ _ (by decide) (by decide)

/-- C5 counterexample: the claim says order cannot be changed through
updateStorageArea. The source type of updates includes the order field and
the object spread applies it: updating area a with order 5 changes its
order from 0 to 5. -/
theorem updateStorageArea_order_counterexample :
    updateStorageArea [areaA0] "a" (orderOnlyUpdate 5) = [{ areaA0 with order := 5 }] ∧
    areaA0.order = 0 ∧ ({ areaA0 with order := 5 }).order = 5 := by decide

/-- C5 amended: updateStorageArea rewrites every area with the matching id
by spreading exactly the provided fields over it — name, icon, color AND
order when provided — never changing the id and leaving every unprovided
field and every other area unchanged; the order field CAN be changed
through this path when the updates object carries one. -/
theorem updateStorageArea_frame (prev : List StorageArea) (id : String)
    (u : AreaUpdates) :
    (updateStorageArea prev id u).length = prev.length ∧
    (∀ a : StorageArea, (applyAreaUpdates a u).id = a.id ∧
       (u.name = none → (applyAreaUpdates a u).name = a.name) ∧
       (u.icon = none → (applyAreaUpdates a u).icon = a.icon) ∧
       (u.color = none → (applyAreaUpdates a u).color = a.color) ∧
       (u.order = none → (applyAreaUpdates a u).order = a.order)) ∧
    ∀ (i : Nat) (a : StorageArea), prev[i]? = some a →
      (updateStorageArea prev id u)[i]? =
        some (if a.id = id then applyAreaUpdates a u else a) := by
  refine ⟨by simp [updateStorageArea], ?_, ?_⟩
  · intro a
    refine ⟨rfl, ?_, ?_, ?_, ?_⟩ <;> intro h <;> simp [applyAreaUpdates, h]
  · intro i a ha
    unfold updateStorageArea
    rw [List.getElem?_map, ha]
    rfl

/-- C5 witness: updating area a with a name-only update leaves area b, at
position 1, exactly unchanged. -/
theorem updateStorageArea_frame_witness :
    (updateStorageArea [areaA0, areaB1] "a"
        { name := some "Fridge", icon := none, color := none, order := none })[1]? =
      some areaB1 := by
  have h := (updateStorageArea_frame [areaA0, areaB1] "a"
    { name := some "Fridge", icon := none, color := none, order := none }).2.2 1 areaB1 rfl
  rw [h]
  decide

/-- C6 counterexample: the claim says reorderStorageAreas leaves the
membership of the registry unchanged apart from dropping unknown ids.
Reordering the registry of areas a and b by the list containing only a
drops the existing area b from the registry. -/
theorem reorder_drops_counterexample :
    reorderStorageAreas [areaA0, areaB1] ["a"] = [areaA0] ∧
    areaB1 ∈ [areaA0, areaB1] ∧
    ∀ x ∈ reorderStorageAreas [areaA0, areaB1] ["a"], x.id ≠ "b" := by decide

/-- C6 amended: every area in the result of reorderStorageAreas is a
listed existing area changed only in its order field (the operation never
adds areas); the resulting orders are exactly 0..k-1 in result position
order; unconditionally, the result lists — in the given sequence — exactly
those given ids whose lookup in the registry hits, so unknown ids are
dropped while every listed existing id is kept, also in mixed lists; in
particular when every given id exists the result lists exactly the given
ids (order = index); but existing areas missing from the id list are
dropped too, so membership is preserved only when the list covers the
registry. Reversing a three-area registry yields the three areas in
reversed sequence with orders 0, 1, 2. -/
theorem reorderStorageAreas_spec :
    (∀ (prev : List StorageArea) (ids : List String),
       ∀ a ∈ reorderStorageAreas prev ids,
         a.id ∈ ids ∧ ∃ b ∈ prev, b.id = a.id ∧ eraseOrder a = eraseOrder b) ∧
    (∀ (prev : List StorageArea) (ids : List String),
       (reorderStorageAreas prev ids).map StorageArea.order =
         intRange 0 (reorderStorageAreas prev ids).length) ∧
    (∀ (prev : List StorageArea) (ids : List String),
       (reorderStorageAreas prev ids).map StorageArea.id =
         ids.filter (fun id => (areaLookup prev id).isSome)) ∧
    (∀ (prev : List StorageArea) (ids : List String),
       (∀ id ∈ ids, ∃ a ∈ prev, a.id = id) →
       (reorderStorageAreas prev ids).map StorageArea.id = ids) ∧
    reorderStorageAreas [areaA0, areaB1, areaC2] ["c", "b", "a"] =
      [{ areaC2 with order := 0 }, { areaB1 with order := 1 },
       { areaA0 with order := 2 }] := by
  refine ⟨?_, ?_, ?_, ?_, by decide⟩
  · intro prev ids a ha
    replace ha : a ∈ renumberFrom 0 (ids.filterMap (fun id => areaLookup prev id)) := ha
    obtain ⟨b, hb, he⟩ := mem_renumberFrom ha
    obtain ⟨hbprev, hbid⟩ := mem_filterMap_lookup hb
    have hid0 := congrArg StorageArea.id he
    simp only [eraseOrder] at hid0
    exact ⟨hid0 ▸ hbid, b, hbprev, hid0.symm, he⟩
  · intro prev ids
    unfold reorderStorageAreas renumberAreas
    rw [renumberFrom_map_order, renumberFrom_length]
  · intro prev ids
    unfold reorderStorageAreas renumberAreas
    rw [renumberFrom_map_id, filterMap_lookup_map_id_filter]
  · intro prev ids h
    unfold reorderStorageAreas renumberAreas
    rw [renumberFrom_map_id, filterMap_lookup_map_id h]

/-- C6 witness: on the mixed list of a ghost id and the existing id b,
exactly the existing id b is kept, in sequence; and reordering by the
reversed full id list yields exactly those ids in the reversed
sequence. -/
theorem reorderStorageAreas_spec_witness :
    (reorderStorageAreas [areaA0, areaB1] ["ghost", "b"]).map StorageArea.id = ["b"] ∧
    (reorderStorageAreas [areaA0, areaB1] ["b", "a"]).map StorageArea.id =
      ["b", "a"] := by
  constructor
  · have h := reorderStorageAreas_spec.2.2.1 [areaA0, areaB1] ["ghost", "b"]
    rw [h]
    decide
  · exact reorderStorageAreas_spec.2.2.2.1 [areaA0, areaB1] ["b", "a"] (by decide)

/-- C7: opening an item recomputes its expiry from the whole-day distance
daysLeft between the expiry midnight and today: above one day left, the
opened portion expires at today plus max 1 (floor of daysLeft over 2);
otherwise the expiry is unchanged; an item without expiry keeps none. The
first conjunct ties the formula to openItem on a full open. -/
theorem openItem_expiry_spec (prev : List PantryItem) (id : String) (q : Int)
    (freshId : String) (now : Int) (today : Int) (item : PantryItem)
    (hfind : firstWithId prev id = some item) (hq : item.quantity ≤ q) :
    firstWithId (openItem prev id q freshId now today) id =
      some (markOpened now (computeNewExpiry today item.expiryDate) item) ∧
    (∀ e : Int, 1 < e - today →
       computeNewExpiry today (some e) = some (today + max 1 ((e - today) / 2))) ∧
    (∀ e : Int, e - today ≤ 1 → computeNewExpiry today (some e) = some e) ∧
    computeNewExpiry today none = none := by
  refine ⟨?_, ?_, ?_, rfl⟩
  · rw [openItem_full_eq hfind hq, firstWithId_map_mark, hfind]
    rfl
  · intro e he
    simp only [computeNewExpiry]
    rw [if_pos he]
  · intro e he
    simp only [computeNewExpiry]
    rw [if_neg (by omega)]

/-- C7 witness: fully opening Bread expiring in 10 days on day 0 halves
the remaining life: the record becomes opened with expiry day 5. -/
theorem openItem_expiry_spec_witness :
    firstWithId (openItem [bread1] "b1" 1 "f" 7 0) "b1" =
      some { bread1 with isOpened := true, openedAt := some 7, expiryDate := some 5 } := by
  have h := (openItem_expiry_spec [bread1] "b1" 1 "f" 7 0 bread1 (by decide)
    (by decide)).1
  rw [h]
  decide

/-- C8: updateItemQuantity below 1 destroys the addressed item and only
it (a removal, not an error); at 1 or above it rewrites exactly the
quantity of the items with that id in place, every other field and item
unchanged; and from the empty store, under commands whose openItem calls
respect the quantity contract, every reachable ledger holds only items of
quantity at least 1 — no quantity-0 item is ever observable. -/
theorem updateItemQuantity_spec :
    (∀ (prev : List PantryItem) (id : String) (q : Int), q < 1 →
       ∀ item, item ∈ updateItemQuantity prev id q ↔ item ∈ prev ∧ item.id ≠ id) ∧
    (∀ (prev : List PantryItem) (id : String) (q : Int), 1 ≤ q →
       (updateItemQuantity prev id q).length = prev.length ∧
       ∀ (i : Nat) (item : PantryItem), prev[i]? = some item →
         (updateItemQuantity prev id q)[i]? =
           some (if item.id = id then { item with quantity := q } else item)) ∧
    (∀ (s : StoreState) (op : StoreOp), posQty s.items → qtyContractOK s op →
       posQty (applyOp s op).items) ∧
    (∀ s : StoreState, Reachable qtyContractOK s → posQty s.items) := by
  refine ⟨?_, ?_, posQty_applyOp, ?_⟩
  · intro prev id q hq item
    unfold updateItemQuantity
    rw [if_pos hq, List.mem_filter]
    simp
  · intro prev id q hq
    unfold updateItemQuantity
    rw [if_neg (by omega)]
    refine ⟨by simp, ?_⟩
    intro i item hi
    rw [List.getElem?_map, hi]
    rfl
  · intro s hr
    induction hr with
    | init => intro x hx; simp at hx
    | step hr hgood ih => exact posQty_applyOp _ _ ih hgood

/-- C8 witness: setting the quantity of item a to 0 removes it, leaving a
ledger of positive quantities. -/
theorem updateItemQuantity_spec_witness :
    posQty (applyOp { storageAreas := [], items := [eggs3] }
      (StoreOp.updateQuantityOp "a" 0)).items :=
  updateItemQuantity_spec.2.2.1 _ _ (by decide) True.intro

/-- C9 counterexample: the claim says every id-keyed operation called with
a missing id signals NotFound distinctly from success. updateItemQuantity
on the existing id a (a success) and on the absent id zzz return the
identical bare ledger — the operations return only the new state, so the
missing-id call is observationally indistinguishable from a success. -/
theorem notFound_counterexample :
    updateItemQuantity [eggs3] "a" 3 = [eggs3] ∧
    updateItemQuantity [eggs3] "zzz" 3 = [eggs3] ∧
    firstWithId [eggs3] "a" = some eggs3 ∧
    firstWithId [eggs3] "zzz" = none := by decide

/-- C9 amended: the id-keyed operations signal nothing: called with an id
absent from the respective collection they are silent no-ops returning
the state unchanged (for deleteStorageArea, given the positional order
invariant and no orphaned items referencing the missing id), with no
NotFound channel distinct from success. -/
theorem missing_id_noops :
    (∀ (prev : List StorageArea) (id : String) (u : AreaUpdates),
       (∀ a ∈ prev, a.id ≠ id) → updateStorageArea prev id u = prev) ∧
    (∀ (s : StoreState) (id : String), ordersSeq s.storageAreas →
       (∀ a ∈ s.storageAreas, a.id ≠ id) →
       (∀ item ∈ s.items, item.storageAreaId ≠ id) →
       deleteStorageArea s id = s) ∧
    (∀ (prev : List PantryItem) (id : String) (q : Int),
       (∀ item ∈ prev, item.id ≠ id) → updateItemQuantity prev id q = prev) ∧
    (∀ (prev : List PantryItem) (id : String),
       (∀ item ∈ prev, item.id ≠ id) → removeItem prev id = prev) ∧
    (∀ (prev : List PantryItem) (id : String) (q : Int) (freshId : String)
       (now today : Int),
       (∀ item ∈ prev, item.id ≠ id) → openItem prev id q freshId now today = prev) := by
  refine ⟨?_, ?_, ?_, ?_, ?_⟩
  · intro prev id u h
    unfold updateStorageArea
    exact map_if_no_match _ _ prev h
  · intro s id hseq hareas hitems
    unfold deleteStorageArea deleteStorageAreaAreas renumberAreas
    have hfa : s.storageAreas.filter (fun area => decide (area.id ≠ id)) = s.storageAreas :=
      List.filter_eq_self.mpr (fun a ha => by simpa using hareas a ha)
    have hfi : s.items.filter (fun item => decide (item.storageAreaId ≠ id)) = s.items :=
      List.filter_eq_self.mpr (fun it hit => by simpa using hitems it hit)
    rw [hfa, hfi, renumberFrom_eq_self (fun i hi => by
      have := hseq i hi
      omega)]
  · intro prev id q h
    unfold updateItemQuantity
    by_cases hq : q < 1
    · rw [if_pos hq]
      exact List.filter_eq_self.mpr (fun it hit => by simpa using h it hit)
    · rw [if_neg hq]
      exact map_if_no_match _ _ prev h
  · intro prev id h
    unfold removeItem
    exact List.filter_eq_self.mpr (fun it hit => by simpa using h it hit)
  · intro prev id q freshId now today h
    unfold openItem
    have hf : firstWithId prev id = none := by
      unfold firstWithId
      rw [List.find?_eq_none]
      intro x hx
      simpa using h x hx
    rw [hf]

/-- C9 witness: removing the absent id zzz leaves the ledger unchanged. -/
theorem missing_id_noops_witness :
    removeItem [eggs3] "zzz" = [eggs3] :=
  missing_id_noops.2.2.2.1 [eggs3] "zzz" (by decide)

/-- C10: openItem with a requested quantity at least the quantity of the
addressed item — including strictly greater — performs a full in-place
open rather than rejecting: each record with that id is rewritten to
isOpened = true, openedAt = now, with the recomputed expiry, its quantity
and id untouched; no record is added or removed and records with other
ids are unchanged. -/
theorem openItem_full_spec (prev : List PantryItem) (id : String) (q : Int)
    (freshId : String) (now : Int) (today : Int) (item : PantryItem)
    (hfind : firstWithId prev id = some item) (hq : item.quantity ≤ q) :
    (openItem prev id q freshId now today).length = prev.length ∧
    (∀ itm : PantryItem,
       (markOpened now (computeNewExpiry today item.expiryDate) itm).quantity = itm.quantity ∧
       (markOpened now (computeNewExpiry today item.expiryDate) itm).id = itm.id ∧
       (markOpened now (computeNewExpiry today item.expiryDate) itm).name = itm.name ∧
       (markOpened now (computeNewExpiry today item.expiryDate) itm).storageAreaId = itm.storageAreaId ∧
       (markOpened now (computeNewExpiry today item.expiryDate) itm).createdAt = itm.createdAt ∧
       (markOpened now (computeNewExpiry today item.expiryDate) itm).isOpened = true ∧
       (markOpened now (computeNewExpiry today item.expiryDate) itm).openedAt = some now ∧
       (markOpened now (computeNewExpiry today item.expiryDate) itm).expiryDate =
         computeNewExpiry today item.expiryDate) ∧
    ∀ (i : Nat) (itm : PantryItem), prev[i]? = some itm →
      (openItem prev id q freshId now today)[i]? =
        some (if itm.id = id then
          markOpened now (computeNewExpiry today item.expiryDate) itm else itm) := by
  refine ⟨?_, ?_, ?_⟩
  · rw [openItem_full_eq hfind hq]
    simp
  · intro itm
    exact ⟨rfl, rfl, rfl, rfl, rfl, rfl, rfl, rfl⟩
  · intro i itm hi
    rw [openItem_full_eq hfind hq, List.getElem?_map, hi]
    rfl

/-- C10 witness: requesting 10 of a 2-unit item opens the record in place,
quantity still 2, with no new record. -/
theorem openItem_full_spec_witness :
    (openItem [milk2] "i1" 10 "f" 7 0).length = 1 ∧
    (openItem [milk2] "i1" 10 "f" 7 0)[0]? =
      some { milk2 with isOpened := true, openedAt := some 7 } := by
  have h := openItem_full_spec [milk2] "i1" 10 "f" 7 0 milk2 (by decide) (by decide)
  refine ⟨h.1, ?_⟩
  have h2 := h.2.2 0 milk2 rfl
  rw [h2]
  decide

end Claims

end Pantry
